import Mathlib

/-!
# Shallow embedding of the service-worker alarm core

This file embeds the alarm persistence / due-check / next-wake / keep-alive
core of the two service-worker variants of the repository:

* `src/sw.js`                (cache `habit-tracker-v20`, status-notification aware)
* `src/unnamed/part_000`     (cache `habit-tracker-v22`, no status notification)

The two variants share all core code except three spots where `src/sw.js`
special-cases the reserved status-notification tag (`STATUS_TAG`):
the scan loop skips it (`sw.js` line 204), the next-wake filter excludes it
(line 241), and the keep-alive idle check ignores it (line 303).
The embedding takes a `variant : Bool` flag (`true` = `src/sw.js`,
`false` = `src/unnamed/part_000`) selecting exactly those three differences.

Modelling conventions:

* Time stamps (`Date.now()`, `fireAt`) are natural numbers (epoch ms);
  ages and delays, which the JS code computes by subtraction and which can
  be negative there, are `Int`.
* The IndexedDB `alarms` object store (`keyPath: 'tag'`) is a `List Alarm`;
  `putAlarm` replaces the entry with the same tag (IndexedDB `put` on an
  existing key), `deleteAlarm` removes it.
* The `meta` object store holds the two scalars the code uses
  (`nextWake`, `statusNotifEnabled`).
* In-process ephemeral state (the next-wake timer, the keep-alive
  running flag and timer, the armed snooze-timer tags) is part of the
  state record; a timer field records the armed delay or `none`.
* `registration.showNotification` calls made for *alarms* are the observable
  trace: each call is recorded as a `NotifCall` paired with a `Bool` that is
  `false` when the call throws (the `showFail` oracle); the JS code catches
  the throw and continues, which the embedding mirrors by making the state
  transition independent of the flag.  The status-summary display
  (`updateStatusNotification` / `clearStatusNotification`) reads the store
  but never mutates `alarms`, `meta` or any timer, so it is not part of the
  state transition; its repost loop (the `notificationclose` handler of
  `src/sw.js`) is modelled separately as `repostLoop`.
* Store failures: the scan's `dbGetAll` (the failure mode the spec singles
  out) is modelled by a `readFail` oracle; the remaining `.catch` wrappers
  on best-effort writes are modelled as succeeding writes.
-/

/-- Source constant `STATUS_TAG = 'alarm-watcher'` (`src/sw.js` line 4). -/
def STATUS_TAG : String := "alarm-watcher"

/-- Source constant `LATE_GRACE_MS = 10 * 60 * 1000` (`src/sw.js` line 196). -/
def LATE_GRACE_MS : Nat := 10 * 60 * 1000

/-- Source constant `TICK_MS = 20000` (`src/sw.js` line 279). -/
def TICK_MS : Nat := 20000

/-- A stored alarm record `{ tag, title, body, fireAt, actions, data }` as put
by the `SCHEDULE_ALARM` handler / `SYNC_ALARMS` handler.  `actions` and `data`
are `Option`s because the JS records may carry `undefined` there, which the
scan loop defaults with `alarm.actions || [...]` and `alarm.data || {}`. -/
structure Alarm where
  tag : String
  title : String
  body : String
  fireAt : Nat
  actions : Option (List (String × String)) := none
  data : Option (List (String × String)) := none
deriving DecidableEq

/-- The `meta` object store: the two keys the core uses. -/
structure MetaStore where
  nextWake : Option Nat := none
  statusNotifEnabled : Option Bool := none
deriving DecidableEq

/-- Whole-core state: the two durable collections plus the in-process
ephemeral timer state (`_nextWakeTimer`, `keepAliveRunning`/`keepAliveTimer`,
`snoozeTimers`). -/
structure SWState where
  alarms : List Alarm := []
  meta : MetaStore := {}
  nextWakeTimer : Option Nat := none
  keepAliveRunning : Bool := false
  keepAliveTimer : Bool := false
  snoozeTimers : List String := []
deriving DecidableEq

/-- One `registration.showNotification` call made for an alarm: the title and
the option fields the core passes through. -/
structure NotifCall where
  title : String
  body : String
  tag : String
  data : List (String × String)
  actions : List (String × String)
deriving DecidableEq

/-- Default action set `[ (dismiss, Dismiss) ]` the scan substitutes for an
absent `actions` field. -/
def defaultAlarmActions : List (String × String) := [("dismiss", "Dismiss")]

/-- IndexedDB `put` on the keyed `alarms` store: replaces the record with the
same tag if present, otherwise inserts. -/
def putAlarm (l : List Alarm) (a : Alarm) : List Alarm :=
  if l.any (fun b => b.tag == a.tag) then
    l.map (fun b => if b.tag == a.tag then a else b)
  else l ++ [a]

/-- IndexedDB `delete` on the keyed `alarms` store. -/
def deleteAlarm (l : List Alarm) (t : String) : List Alarm :=
  l.filter (fun b => b.tag ≠ t)

/-- The show call `checkDueAlarms` makes for a due alarm
(`src/sw.js` lines 209-220). -/
def alarmNotif (a : Alarm) : NotifCall :=
  { title := a.title
    body := a.body
    tag := a.tag
    data := a.data.getD []
    actions := a.actions.getD defaultAlarmActions }

/-- One iteration of the `for (const alarm of alarms)` loop of
`checkDueAlarms` (`src/sw.js` lines 203-229): the accumulator carries the
current `alarms` store content and the show calls made so far.  In the
`src/sw.js` variant (`variant = true`) a status-tagged record is skipped
(`continue`, line 204). -/
def scanStep (variant : Bool) (now : Nat) (showFail : String → Bool)
    (acc : List Alarm × List (NotifCall × Bool)) (a : Alarm) :
    List Alarm × List (NotifCall × Bool) :=
  if variant = true ∧ a.tag = STATUS_TAG then acc
  else if 0 ≤ (now : Int) - (a.fireAt : Int) ∧
      (now : Int) - (a.fireAt : Int) ≤ (LATE_GRACE_MS : Int) then
    (deleteAlarm acc.1 a.tag, acc.2 ++ [(alarmNotif a, !showFail a.tag)])
  else if (LATE_GRACE_MS : Int) < (now : Int) - (a.fireAt : Int) then
    (deleteAlarm acc.1 a.tag, acc.2)
  else acc

/-- Filter `a.fireAt > now && a.tag !== STATUS_TAG` of
`_updateNextWakeMeta` (`src/sw.js` line 241); the `part_000` variant
(`variant = false`) filters on `a.fireAt > now` alone (line 173). -/
def pendingFuture (variant : Bool) (now : Nat) (l : List Alarm) : List Alarm :=
  l.filter (fun a => if variant then decide (now < a.fireAt ∧ a.tag ≠ STATUS_TAG)
                     else decide (now < a.fireAt))

/-- The comparison `(a, b) => a.fireAt - b.fireAt` used to sort candidates. -/
def fireLe (a b : Alarm) : Prop := a.fireAt ≤ b.fireAt

instance : DecidableRel fireLe := fun a b => Nat.decLe a.fireAt b.fireAt

instance : IsTotal Alarm fireLe := ⟨fun a b => Nat.le_total a.fireAt b.fireAt⟩

instance : IsTrans Alarm fireLe := ⟨fun _ _ _ h h2 => Nat.le_trans h h2⟩

/-- Source sort `.sort((a, b) => a.fireAt - b.fireAt)` on the candidates. -/
def sortByFireAt (l : List Alarm) : List Alarm := List.insertionSort fireLe l

/-- Function `_armNextWakeTimer(delay)` (`src/sw.js` lines 252-260): cancels any
previous next-wake timer and arms a single-shot timer for
`Math.max(0, delay)`.  (The callback the timer will run is a separate
event; only the armed-slot state is recorded here.) -/
def _armNextWakeTimer (delay : Int) (s : SWState) : SWState :=
  { s with nextWakeTimer := some (max 0 delay).toNat }

/-- Function `_updateNextWakeMeta()` (`src/sw.js` lines 237-250): select the stored
alarm with minimal `fireAt` among those strictly in the future (excluding the
status tag in the `src/sw.js` variant); persist its `fireAt` as `nextWake`
and arm the timer, or delete the `nextWake` key when there is none.  Note
that the `else` branch does not touch `_nextWakeTimer`. -/
def _updateNextWakeMeta (variant : Bool) (now : Nat) (s : SWState) : SWState :=
  match (sortByFireAt (pendingFuture variant now s.alarms)).head? with
  | some next =>
      _armNextWakeTimer ((next.fireAt : Int) - (now : Int))
        { s with meta := { s.meta with nextWake := some next.fireAt } }
  | none => { s with meta := { s.meta with nextWake := none } }

/-- Function `checkDueAlarms()` (`src/sw.js` lines 198-232).  `readFail` models the
initial `dbGetAll('alarms')` throwing, in which case the function returns at
once (line 201) — before the loop and before `_updateNextWakeMeta`.
Otherwise the loop runs over the snapshot just read, and the pass ends with
the next-wake resync. -/
def checkDueAlarms (variant : Bool) (now : Nat) (readFail : Bool)
    (showFail : String → Bool) (s : SWState) :
    SWState × List (NotifCall × Bool) :=
  if readFail then (s, [])
  else
    let r := s.alarms.foldl (scanStep variant now showFail) (s.alarms, [])
    (_updateNextWakeMeta variant now { s with alarms := r.1 }, r.2)

/-- Function `rearmOnWakeup()` (`src/sw.js` lines 262-276).  If a next-wake timer is
already armed: nothing.  Else read the persisted `nextWake` (the read may
throw: `metaReadFail`, swallowed by the surrounding `try`).  The JS guard
`if (nextWake)` is a truthiness test, so an absent key *or the value 0*
skips the branch.  When the deadline has passed (`delay <= 0`) the scanner
runs immediately (its own read may fail: `scanReadFail`); otherwise the
timer is re-armed for the remaining delay. -/
def rearmOnWakeup (now : Nat) (metaReadFail scanReadFail : Bool)
    (showFail : String → Bool) (variant : Bool) (s : SWState) :
    SWState × List (NotifCall × Bool) :=
  if s.nextWakeTimer.isSome then (s, [])
  else if metaReadFail then (s, [])
  else
    match s.meta.nextWake with
    | some v =>
        if v = 0 then (s, [])
        else if (v : Int) - (now : Int) ≤ 0 then
          checkDueAlarms variant now scanReadFail showFail s
        else (_armNextWakeTimer ((v : Int) - (now : Int)) s, [])
    | none => (s, [])

/-- Function `startKeepAlive()` (`src/sw.js` lines 283-287): Idle→Running, arming the
first tick via `_scheduleTick()`; a no-op when already Running. -/
def startKeepAlive (s : SWState) : SWState :=
  if s.keepAliveRunning then s
  else { s with keepAliveRunning := true, keepAliveTimer := true }

/-- Function `stopKeepAlive()` (`src/sw.js` lines 289-292): Running→Idle and cancel
any pending tick. -/
def stopKeepAlive (s : SWState) : SWState :=
  { s with keepAliveRunning := false, keepAliveTimer := false }

/-- The events that touch the keep-alive state machine.  Only
`startKeepAlive`, `stopKeepAlive` and the tick callback armed by
`_scheduleTick` read or write `keepAliveRunning` / `keepAliveTimer` in the
source; every other code path reaches them through `startKeepAlive` or
`stopKeepAlive`, so this alphabet is complete for the keep-alive fields. -/
inductive KAEvent where
  | start
  | stop
  | tick (variant : Bool) (now : Nat) (readFail1 readFail2 : Bool)
      (showFail : String → Bool)

/-- Returns `true` exactly on `KAEvent.start`. -/
def KAEvent.isStart : KAEvent → Bool
  | .start => true
  | _ => false

/-- The idle check of the tick body: `src/sw.js` line 303 tests
`remaining.some(a => a.tag !== STATUS_TAG)` while the `part_000` variant
(line 230) tests `remaining.length`. -/
def kaHasReal (variant : Bool) (remaining : List Alarm) : Bool :=
  if variant then remaining.any (fun a => a.tag ≠ STATUS_TAG)
  else !remaining.isEmpty

/-- One keep-alive event.  The second component is `true` when a tick body
actually ran its scan (got past the `keepAliveTimer` / `keepAliveRunning`
guards of `src/sw.js` lines 296-298).  The tick body (`_scheduleTick`,
lines 294-313): clear the handle, bail when stopped, scan, read the
remaining alarms (`readFail2` degrades that read to `[]`), stop when no
real alarm remains, otherwise re-arm the next tick. -/
def kaStep (e : KAEvent) (s : SWState) : SWState × Bool :=
  match e with
  | .start => (startKeepAlive s, false)
  | .stop => (stopKeepAlive s, false)
  | .tick variant now readFail1 readFail2 showFail =>
      if s.keepAliveTimer = false then (s, false)
      else if s.keepAliveRunning = false then ({ s with keepAliveTimer := false }, false)
      else if kaHasReal variant (if readFail2 then [] else
          (checkDueAlarms variant now readFail1 showFail
            { s with keepAliveTimer := false }).1.alarms) = false then
        (stopKeepAlive (checkDueAlarms variant now readFail1 showFail
          { s with keepAliveTimer := false }).1, true)
      else if (checkDueAlarms variant now readFail1 showFail
          { s with keepAliveTimer := false }).1.keepAliveRunning then
        ({ (checkDueAlarms variant now readFail1 showFail
            { s with keepAliveTimer := false }).1 with keepAliveTimer := true }, true)
      else ((checkDueAlarms variant now readFail1 showFail
        { s with keepAliveTimer := false }).1, true)

/-- Run a sequence of keep-alive events, counting the tick bodies that ran. -/
def kaRun : List KAEvent → SWState → SWState × Nat
  | [], s => (s, 0)
  | e :: es, s =>
      ((kaRun es (kaStep e s).1).1,
        (if (kaStep e s).2 then 1 else 0) + (kaRun es (kaStep e s).1).2)

/-- Effect of `setSnoozeTimer` on the `snoozeTimers` map keys: the tag ends up
armed (replacing any previous timer under that tag). -/
def setSnooze (tag : String) (l : List String) : List String :=
  if l.contains tag then l else l ++ [tag]

/-- Payload of a `SCHEDULE_ALARM` message
(`title, body, tag, delay(ms), actions?, data?`). -/
structure ScheduleMsg where
  tag : String
  title : String
  body : String
  delay : Option Nat := none
  actions : Option (List (String × String)) := none
  data : Option (List (String × String)) := none

/-- The record the `SCHEDULE_ALARM` handler puts:
`{ tag, title, body, fireAt: Date.now() + (delay || 0), actions, data: data || {} }`. -/
def scheduledAlarm (now : Nat) (m : ScheduleMsg) : Alarm :=
  { tag := m.tag, title := m.title, body := m.body,
    fireAt := now + m.delay.getD 0,
    actions := m.actions, data := some (m.data.getD []) }

/-- The `SCHEDULE_ALARM` handler (`src/sw.js` lines 379-390): compute
`fireAt = Date.now() + (delay || 0)`, arm the snooze timer, `dbPut` the
alarm record, start the keep-alive driver, resync next-wake. -/
def handleScheduleAlarm (variant : Bool) (now : Nat) (m : ScheduleMsg)
    (s : SWState) : SWState :=
  let s0 : SWState := { s with snoozeTimers := setSnooze m.tag s.snoozeTimers }
  let s1 : SWState := { s0 with alarms := putAlarm s0.alarms (scheduledAlarm now m) }
  _updateNextWakeMeta variant now (startKeepAlive s1)

/-- The `SYNC_ALARMS` handler (`src/sw.js` lines 347-362): `dbClear` the
`alarms` store, re-insert every listed alarm with `fireAt > now`, start the
keep-alive driver, resync next-wake. -/
def handleSyncAlarms (variant : Bool) (now : Nat) (incoming : List Alarm)
    (s : SWState) : SWState :=
  let s0 : SWState := { s with alarms := [] }
  let s1 := incoming.foldl
    (fun st a => if now < a.fireAt then { st with alarms := putAlarm st.alarms a } else st)
    s0
  _updateNextWakeMeta variant now (startKeepAlive s1)

/-- The `CANCEL_ALARM` handler (`src/sw.js` lines 392-399): clear the snooze
timer for the tag and `dbDelete` the alarm. -/
def handleCancelAlarm (tag : String) (s : SWState) : SWState :=
  { s with snoozeTimers := s.snoozeTimers.filter (fun t => t ≠ tag),
           alarms := deleteAlarm s.alarms tag }

/-- The backoff table of the `notificationclose` repost loop
(`src/sw.js` line 497). -/
def repostDelays : List Nat := [300, 600, 1200, 2000, 3000, 4000, 5000, 6000, 7000, 8000]

/-- What one iteration of the repost loop observes from the outside world:
the value read for `statusNotifEnabled` (`none` models both an absent key
and a failed read, which `.catch(() => undefined)` folds together), whether
a status-tagged notification is already displayed at the pre-check, and
whether one is displayed at the post-attempt confirmation check. -/
structure RepostEnv where
  pref : Option Bool := none
  existing : Bool := false
  shownAfter : Bool := false

/-- How one iteration of the repost loop ended. -/
inductive RepostOutcome where
  | abortPref
  | abortExisting
  | success
  | retry
deriving DecidableEq

/-- The body of `for (const delay of delays)` (`src/sw.js` lines 498-510),
indexed by iteration number so each iteration sees its own environment:
sleep `delay`, read the preference and abort when it is `false`, abort when
the status notification is already displayed, otherwise attempt the repost
(`updateStatusNotification()`) and stop when the confirmation check sees it
displayed; else continue with the next delay.  The trace records, per
executed iteration, the delay slept and the outcome. -/
def repostLoopGo (env : Nat → RepostEnv) : Nat → List Nat → List (Nat × RepostOutcome)
  | _, [] => []
  | i, d :: rest =>
      let e := env i
      if e.pref = some false then [(d, RepostOutcome.abortPref)]
      else if e.existing then [(d, RepostOutcome.abortExisting)]
      else if e.shownAfter then [(d, RepostOutcome.success)]
      else (d, RepostOutcome.retry) :: repostLoopGo env (i + 1) rest

/-- The whole repost loop of the `notificationclose` handler. -/
def repostLoop (env : Nat → RepostEnv) : List (Nat × RepostOutcome) :=
  repostLoopGo env 0 repostDelays

/-- A repost attempt (a call into `updateStatusNotification`) happens exactly
in the iterations that got past both abort checks. -/
def RepostOutcome.attempted : RepostOutcome → Bool
  | .success => true
  | .retry => true
  | _ => false

/-! ## Derived characterizations of the scan loop -/

/-- An alarm the scan pass notifies and deletes: not the skipped status
record (in the `src/sw.js` variant), due, and within the grace window. -/
def Fires (variant : Bool) (now : Nat) (a : Alarm) : Prop :=
  ¬(variant = true ∧ a.tag = STATUS_TAG) ∧
    0 ≤ (now : Int) - (a.fireAt : Int) ∧
    (now : Int) - (a.fireAt : Int) ≤ (LATE_GRACE_MS : Int)

/-- An alarm the scan pass silently deletes: not the skipped status record,
and past the grace window. -/
def Expires (variant : Bool) (now : Nat) (a : Alarm) : Prop :=
  ¬(variant = true ∧ a.tag = STATUS_TAG) ∧
    (LATE_GRACE_MS : Int) < (now : Int) - (a.fireAt : Int)

instance (v : Bool) (now : Nat) (a : Alarm) : Decidable (Fires v now a) := by
  unfold Fires; infer_instance

instance (v : Bool) (now : Nat) (a : Alarm) : Decidable (Expires v now a) := by
  unfold Expires; infer_instance

/-- Tags the scan pass deletes from the store. -/
def removedTags (v : Bool) (now : Nat) (l : List Alarm) : List String :=
  (l.filter (fun a => decide (Fires v now a) || decide (Expires v now a))).map Alarm.tag

/-- Show calls the scan pass makes, in store order. -/
def scanCalls (v : Bool) (now : Nat) (sf : String → Bool) (l : List Alarm) :
    List (NotifCall × Bool) :=
  (l.filter (fun a => decide (Fires v now a))).map (fun a => (alarmNotif a, !sf a.tag))

theorem deleteAlarm_filter (st : List Alarm) (t : String) (p : Alarm → Bool) :
    (deleteAlarm st t).filter p = st.filter (fun b => p b && !(b.tag == t)) := by
  unfold deleteAlarm
  rw [List.filter_filter]
  apply List.filter_congr
  intro b _
  by_cases h : b.tag = t <;> simp [h]

/-- The `for` loop of `checkDueAlarms`, run over snapshot `l` with initial
store `st` and already-made calls `cs`: it deletes exactly the removed tags
and appends exactly the due-alarm show calls. -/
theorem scan_foldl_eq (v : Bool) (now : Nat) (sf : String → Bool) :
    ∀ (l : List Alarm) (st : List Alarm) (cs : List (NotifCall × Bool)),
      l.foldl (scanStep v now sf) (st, cs) =
        (st.filter (fun b => !(removedTags v now l).contains b.tag),
          cs ++ scanCalls v now sf l) := by
  intro l
  induction l with
  | nil =>
      intro st cs
      simp [removedTags, scanCalls, List.filter_eq_self]
  | cons a l ih =>
      intro st cs
      rw [List.foldl_cons]
      by_cases hskip : v = true ∧ a.tag = STATUS_TAG
      · have hf : ¬ Fires v now a := fun h => h.1 hskip
        have he : ¬ Expires v now a := fun h => h.1 hskip
        have hstep : scanStep v now sf (st, cs) a = (st, cs) := by
          unfold scanStep
          rw [if_pos hskip]
        rw [hstep, ih st cs]
        simp [removedTags, scanCalls, List.filter_cons, hf, he]
      · by_cases hdue : 0 ≤ (now : Int) - (a.fireAt : Int) ∧
            (now : Int) - (a.fireAt : Int) ≤ (LATE_GRACE_MS : Int)
        · have hf : Fires v now a := ⟨hskip, hdue.1, hdue.2⟩
          have he : ¬ Expires v now a := fun h => absurd hdue.2 (not_le.mpr h.2)
          have hstep : scanStep v now sf (st, cs) a =
              (deleteAlarm st a.tag, cs ++ [(alarmNotif a, !sf a.tag)]) := by
            unfold scanStep
            rw [if_neg hskip, if_pos hdue]
          rw [hstep, ih]
          have hrt : removedTags v now (a :: l) = a.tag :: removedTags v now l := by
            simp [removedTags, List.filter_cons, hf]
          refine Prod.ext ?_ ?_
          · show List.filter _ (deleteAlarm st a.tag) = List.filter _ st
            rw [deleteAlarm_filter]
            apply List.filter_congr
            intro b _
            rw [hrt, List.contains_cons]
            by_cases h : b.tag = a.tag <;> simp [h, Bool.and_comm]
          · show cs ++ [(alarmNotif a, !sf a.tag)] ++ scanCalls v now sf l =
              cs ++ scanCalls v now sf (a :: l)
            simp [scanCalls, List.filter_cons, hf]
        · by_cases hlate : (LATE_GRACE_MS : Int) < (now : Int) - (a.fireAt : Int)
          · have hf : ¬ Fires v now a := fun h => hdue ⟨h.2.1, h.2.2⟩
            have he : Expires v now a := ⟨hskip, hlate⟩
            have hstep : scanStep v now sf (st, cs) a = (deleteAlarm st a.tag, cs) := by
              unfold scanStep
              rw [if_neg hskip, if_neg hdue, if_pos hlate]
            rw [hstep, ih]
            have hrt : removedTags v now (a :: l) = a.tag :: removedTags v now l := by
              simp [removedTags, List.filter_cons, he]
            refine Prod.ext ?_ ?_
            · show List.filter _ (deleteAlarm st a.tag) = List.filter _ st
              rw [deleteAlarm_filter]
              apply List.filter_congr
              intro b _
              rw [hrt, List.contains_cons]
              by_cases h : b.tag = a.tag <;> simp [h, Bool.and_comm]
            · show cs ++ scanCalls v now sf l = cs ++ scanCalls v now sf (a :: l)
              simp [scanCalls, List.filter_cons, hf]
          · have hf : ¬ Fires v now a := fun h => hdue ⟨h.2.1, h.2.2⟩
            have he : ¬ Expires v now a := fun h => hlate h.2
            have hstep : scanStep v now sf (st, cs) a = (st, cs) := by
              unfold scanStep
              rw [if_neg hskip, if_neg hdue, if_neg hlate]
            rw [hstep, ih st cs]
            simp [removedTags, scanCalls, List.filter_cons, hf, he]

/-! ## Field-preservation facts -/

theorem _armNextWakeTimer_alarms (d : Int) (s : SWState) :
    (_armNextWakeTimer d s).alarms = s.alarms := rfl

theorem _updateNextWakeMeta_alarms (v : Bool) (now : Nat) (s : SWState) :
    (_updateNextWakeMeta v now s).alarms = s.alarms := by
  unfold _updateNextWakeMeta
  cases (sortByFireAt (pendingFuture v now s.alarms)).head? <;> rfl

theorem _updateNextWakeMeta_keepAlive (v : Bool) (now : Nat) (s : SWState) :
    (_updateNextWakeMeta v now s).keepAliveRunning = s.keepAliveRunning ∧
      (_updateNextWakeMeta v now s).keepAliveTimer = s.keepAliveTimer := by
  unfold _updateNextWakeMeta
  cases (sortByFireAt (pendingFuture v now s.alarms)).head? <;> exact ⟨rfl, rfl⟩

theorem startKeepAlive_alarms (s : SWState) :
    (startKeepAlive s).alarms = s.alarms := by
  unfold startKeepAlive
  split <;> rfl

theorem startKeepAlive_meta (s : SWState) :
    (startKeepAlive s).meta = s.meta := by
  unfold startKeepAlive
  split <;> rfl

/-! ## The scan pass, characterized -/

/-- The alarms store after a successful scan pass: the snapshot filtered of
the removed tags. -/
theorem checkDueAlarms_fst_alarms (v : Bool) (now : Nat) (sf : String → Bool)
    (s : SWState) :
    (checkDueAlarms v now false sf s).1.alarms =
      s.alarms.filter (fun b => !(removedTags v now s.alarms).contains b.tag) := by
  unfold checkDueAlarms
  rw [if_neg (by exact fun h => Bool.false_ne_true (by exact h.symm ▸ rfl))]
  · rw [scan_foldl_eq, _updateNextWakeMeta_alarms]

/-- The show calls of a successful scan pass. -/
theorem checkDueAlarms_snd (v : Bool) (now : Nat) (sf : String → Bool)
    (s : SWState) :
    (checkDueAlarms v now false sf s).2 = scanCalls v now sf s.alarms := by
  simp only [checkDueAlarms, Bool.false_eq_true, if_false, scan_foldl_eq,
    List.nil_append]

/-- Under the keyed-store invariant (no two records share a tag), a stored
record carries a removed tag exactly when it itself fired or expired. -/
theorem removedTags_contains_iff (v : Bool) (now : Nat) {l : List Alarm}
    (hnd : (l.map Alarm.tag).Nodup) {b : Alarm} (hb : b ∈ l) :
    (removedTags v now l).contains b.tag =
      (decide (Fires v now b) || decide (Expires v now b)) := by
  by_cases hrem : Fires v now b ∨ Expires v now b
  · have hmem : b.tag ∈ removedTags v now l := by
      unfold removedTags
      exact List.mem_map_of_mem Alarm.tag
        (List.mem_filter.mpr ⟨hb, by simpa using hrem⟩)
    have hc : (removedTags v now l).contains b.tag = true := List.elem_iff.mpr hmem
    rw [hc]
    rcases hrem with h | h <;> simp [h]
  · have hmem : b.tag ∉ removedTags v now l := by
      unfold removedTags
      intro hmem
      rcases List.mem_map.mp hmem with ⟨c, hc, hct⟩
      rcases List.mem_filter.mp hc with ⟨hcl, hcp⟩
      have : c = b := List.inj_on_of_nodup_map hnd hcl hb hct
      subst this
      exact hrem (by simpa using hcp)
    have hc : (removedTags v now l).contains b.tag = false := by
      by_contra h
      exact hmem (List.elem_iff.mp (Bool.of_not_eq_false h))
    rw [hc]
    push_neg at hrem
    simp [hrem.1, hrem.2]

/-- Under the keyed-store invariant, the post-scan store is the snapshot
restricted to the untouched alarms. -/
theorem checkDueAlarms_fst_alarms_nodup (v : Bool) (now : Nat)
    (sf : String → Bool) (s : SWState)
    (hnd : (s.alarms.map Alarm.tag).Nodup) :
    (checkDueAlarms v now false sf s).1.alarms =
      s.alarms.filter
        (fun b => !(decide (Fires v now b) || decide (Expires v now b))) := by
  rw [checkDueAlarms_fst_alarms]
  apply List.filter_congr
  intro b hb
  rw [removedTags_contains_iff v now hnd hb]

theorem alarmNotif_tag (a : Alarm) : (alarmNotif a).tag = a.tag := rfl

theorem mem_scanCalls (v : Bool) (now : Nat) (sf : String → Bool)
    (l : List Alarm) (c : NotifCall × Bool) :
    c ∈ scanCalls v now sf l ↔
      ∃ b, b ∈ l ∧ Fires v now b ∧ c = (alarmNotif b, !sf b.tag) := by
  unfold scanCalls
  rw [List.mem_map]
  constructor
  · rintro ⟨b, hb, rfl⟩
    rcases List.mem_filter.mp hb with ⟨hbl, hbf⟩
    exact ⟨b, hbl, by simpa using hbf, rfl⟩
  · rintro ⟨b, hbl, hbf, rfl⟩
    exact ⟨b, List.mem_filter.mpr ⟨hbl, by simpa using hbf⟩, rfl⟩

theorem countP_tag_scanCalls (v : Bool) (now : Nat) (sf : String → Bool)
    (l : List Alarm) (t : String) :
    (scanCalls v now sf l).countP (fun c => c.1.tag == t) =
      (l.filter (fun a => decide (Fires v now a))).countP (fun b => b.tag == t) := by
  unfold scanCalls
  rw [List.countP_map]
  rfl

theorem nodup_filter_tags {l : List Alarm} (hnd : (l.map Alarm.tag).Nodup)
    (p : Alarm → Bool) : ((l.filter p).map Alarm.tag).Nodup :=
  List.Nodup.sublist (List.Sublist.map Alarm.tag (List.filter_sublist l)) hnd

theorem countP_tag_eq_count {l : List Alarm} (t : String) :
    l.countP (fun b => b.tag == t) = (l.map Alarm.tag).count t := by
  rw [List.count_eq_countP, List.countP_map]
  rfl

/-! ## C1 — the scan partition -/

/-- A status-tagged record stored in the alarms collection, due right now. -/
def c1StatusAlarm : Alarm :=
  { tag := "alarm-watcher", title := "status", body := "status", fireAt := 1000 }

/-- A store holding only that record. -/
def c1StatusState : SWState := { alarms := [c1StatusAlarm] }

/-- C1 counterexample: in the `src/sw.js` variant the claim fails for a
stored record whose tag is the reserved status tag.  At `now = fireAt`
(age `0`, within the grace window) the claim demands exactly one
notification and deletion, but the scan skips the record: it emits no call
and leaves the store unchanged. -/
theorem c1_counterexample :
    c1StatusAlarm.fireAt = 1000 ∧
    (checkDueAlarms true 1000 false (fun _ => false) c1StatusState).2 = [] ∧
    (checkDueAlarms true 1000 false (fun _ => false) c1StatusState).1.alarms =
      [c1StatusAlarm] := by
  refine ⟨rfl, ?_, ?_⟩ <;> rfl

/-- C1 (amended): for every stored Alarm — in the `src/sw.js` variant, every
stored Alarm whose tag is not the reserved status tag `'alarm-watcher'` — a
single scan with current time `now` partitions it by `age = now - fireAt`:
`age < 0` leaves it stored with no call for its tag; `0 ≤ age ≤ 10 min`
makes exactly one show call carrying its title/body/tag/actions/data and
deletes it (deletion regardless of the show-call failure flag, which the
conclusion holds for every `sf`); `age > 10 min` deletes it with no call. -/
theorem c1_scan_partitions (v : Bool) (now : Nat) (sf : String → Bool)
    (s : SWState) (a : Alarm) (ha : a ∈ s.alarms)
    (hnd : (s.alarms.map Alarm.tag).Nodup)
    (htag : v = true → a.tag ≠ STATUS_TAG) :
    ((now : Int) - (a.fireAt : Int) < 0 →
        a ∈ (checkDueAlarms v now false sf s).1.alarms ∧
        ∀ c ∈ (checkDueAlarms v now false sf s).2, c.1.tag ≠ a.tag) ∧
    (0 ≤ (now : Int) - (a.fireAt : Int) ∧
        (now : Int) - (a.fireAt : Int) ≤ (LATE_GRACE_MS : Int) →
        (alarmNotif a, !sf a.tag) ∈ (checkDueAlarms v now false sf s).2 ∧
        (checkDueAlarms v now false sf s).2.countP (fun c => c.1.tag == a.tag) = 1 ∧
        ∀ b ∈ (checkDueAlarms v now false sf s).1.alarms, b.tag ≠ a.tag) ∧
    ((LATE_GRACE_MS : Int) < (now : Int) - (a.fireAt : Int) →
        (∀ b ∈ (checkDueAlarms v now false sf s).1.alarms, b.tag ≠ a.tag) ∧
        ∀ c ∈ (checkDueAlarms v now false sf s).2, c.1.tag ≠ a.tag) := by
  have hns : ¬(v = true ∧ a.tag = STATUS_TAG) := fun h => htag h.1 h.2
  rw [checkDueAlarms_fst_alarms_nodup v now sf s hnd, checkDueAlarms_snd]
  refine ⟨?_, ?_, ?_⟩
  · intro hage
    have hf : ¬ Fires v now a := fun h => absurd h.2.1 (not_le.mpr hage)
    have he : ¬ Expires v now a := fun h => absurd h.2
        (by omega)
    constructor
    · exact List.mem_filter.mpr ⟨ha, by simp [hf, he]⟩
    · intro c hc
      rcases (mem_scanCalls v now sf s.alarms c).mp hc with ⟨b, hbl, hbf, rfl⟩
      intro hteq
      have : b = a := List.inj_on_of_nodup_map hnd hbl ha (by simpa using hteq)
      exact hf (this ▸ hbf)
  · intro hage
    have hf : Fires v now a := ⟨hns, hage.1, hage.2⟩
    refine ⟨?_, ?_, ?_⟩
    · exact (mem_scanCalls v now sf s.alarms _).mpr ⟨a, ha, hf, rfl⟩
    · rw [countP_tag_scanCalls, countP_tag_eq_count]
      have hnd2 : ((s.alarms.filter (fun b => decide (Fires v now b))).map Alarm.tag).Nodup :=
        nodup_filter_tags hnd _
      have hmem : a.tag ∈ (s.alarms.filter (fun b => decide (Fires v now b))).map Alarm.tag :=
        List.mem_map_of_mem Alarm.tag (List.mem_filter.mpr ⟨ha, by simpa using hf⟩)
      have hle := (List.nodup_iff_count_le_one.mp hnd2) a.tag
      have hpos := List.count_pos_iff.mpr hmem
      omega
    · intro b hb hteq
      rcases List.mem_filter.mp hb with ⟨hbl, hbk⟩
      have : b = a := List.inj_on_of_nodup_map hnd hbl ha hteq
      subst this
      simp [hf] at hbk
  · intro hage
    have hf : ¬ Fires v now a := fun h => absurd h.2.2 (not_le.mpr hage)
    have he : Expires v now a := ⟨hns, hage⟩
    constructor
    · intro b hb hteq
      rcases List.mem_filter.mp hb with ⟨hbl, hbk⟩
      have : b = a := List.inj_on_of_nodup_map hnd hbl ha hteq
      subst this
      simp [he] at hbk
    · intro c hc
      rcases (mem_scanCalls v now sf s.alarms c).mp hc with ⟨b, hbl, hbf, rfl⟩
      intro hteq
      have : b = a := List.inj_on_of_nodup_map hnd hbl ha (by simpa using hteq)
      exact hf (this ▸ hbf)

/-- A plain one-tag store used by several witnesses. -/
def wAlarm : Alarm := { tag := "t1", title := "Walk", body := "Go", fireAt := 5000 }

/-- Witness store for C1: the single alarm `wAlarm`. -/
def wState : SWState := { alarms := [wAlarm] }

/-- C1 witness: instantiate the amended theorem at `wState`, `now = 5001`
(age 1 ms, inside the grace window): the call is made and the store entry
is gone. -/
theorem c1_scan_partitions_witness :
    (alarmNotif wAlarm, true) ∈ (checkDueAlarms true 5001 false (fun _ => false) wState).2 ∧
    ∀ b ∈ (checkDueAlarms true 5001 false (fun _ => false) wState).1.alarms,
      b.tag ≠ wAlarm.tag := by
  have h := (c1_scan_partitions true 5001 (fun _ => false) wState wAlarm
    (by simp [wState]) (by simp [wState]) (by intro _; decide)).2.1 (by decide)
  exact ⟨h.1, h.2.2⟩

/-! ## C2 — idempotence of the scan -/

/-- C2: with no intervening mutation and unchanged `now`, a second scan pass
emits nothing — the first pass consumed every due alarm — so across the two
passes at most one show call is made per tag (hence per stored Alarm, the
store being keyed by tag).  The show-failure oracles of the two passes are
arbitrary and independent. -/
theorem c2_scan_idempotent (v : Bool) (now : Nat) (sf1 sf2 : String → Bool)
    (s : SWState) (hnd : (s.alarms.map Alarm.tag).Nodup) :
    (checkDueAlarms v now false sf2 (checkDueAlarms v now false sf1 s).1).2 = [] ∧
    ∀ t : String,
      ((checkDueAlarms v now false sf1 s).2 ++
          (checkDueAlarms v now false sf2 (checkDueAlarms v now false sf1 s).1).2).countP
        (fun c => c.1.tag == t) ≤ 1 := by
  have hsecond :
      (checkDueAlarms v now false sf2 (checkDueAlarms v now false sf1 s).1).2 = [] := by
    rw [checkDueAlarms_snd]
    unfold scanCalls
    rw [checkDueAlarms_fst_alarms_nodup v now sf1 s hnd]
    have : (s.alarms.filter
        (fun b => !(decide (Fires v now b) || decide (Expires v now b)))).filter
          (fun a => decide (Fires v now a)) = [] := by
      apply List.filter_eq_nil_iff.mpr
      intro b hb
      rcases List.mem_filter.mp hb with ⟨_, hbk⟩
      simp only [Bool.not_or, Bool.and_eq_true, Bool.not_eq_true', decide_eq_false_iff_not] at hbk
      simp [hbk.1]
    rw [this]
    rfl
  refine ⟨hsecond, ?_⟩
  intro t
  rw [hsecond, List.append_nil, checkDueAlarms_snd, countP_tag_scanCalls,
    countP_tag_eq_count]
  exact List.nodup_iff_count_le_one.mp (nodup_filter_tags hnd _) t

/-- C2 witness: on the one-alarm store `wState` at `now = 5001` the combined
two-pass trace shows tag `t1` exactly once and any tag at most once. -/
theorem c2_scan_idempotent_witness :
    (checkDueAlarms true 5001 false (fun _ => false)
        (checkDueAlarms true 5001 false (fun _ => false) wState).1).2 = [] ∧
    ((checkDueAlarms true 5001 false (fun _ => false) wState).2 ++
        (checkDueAlarms true 5001 false (fun _ => false)
          (checkDueAlarms true 5001 false (fun _ => false) wState).1).2).countP
      (fun c => c.1.tag == "t1") ≤ 1 := by
  have h := c2_scan_idempotent true 5001 (fun _ => false) (fun _ => false) wState
    (by simp [wState])
  exact ⟨h.1, h.2 "t1"⟩

/-! ## C3 — the next-wake resync -/

theorem mem_pendingFuture {v : Bool} {now : Nat} {l : List Alarm} {b : Alarm}
    (hb : b ∈ pendingFuture v now l) :
    b ∈ l ∧ now < b.fireAt ∧ (v = true → b.tag ≠ STATUS_TAG) := by
  rcases List.mem_filter.mp hb with ⟨hbl, hbp⟩
  cases v <;> simp at hbp
  · exact ⟨hbl, hbp, by simp⟩
  · exact ⟨hbl, hbp.1, fun _ => hbp.2⟩

theorem sortByFireAt_head_min {l : List Alarm} {a : Alarm}
    (h : (sortByFireAt l).head? = some a) :
    a ∈ l ∧ ∀ b ∈ l, a.fireAt ≤ b.fireAt := by
  unfold sortByFireAt at h
  have hperm := List.perm_insertionSort fireLe l
  have hsorted := List.sorted_insertionSort fireLe l
  cases hs : List.insertionSort fireLe l with
  | nil => rw [hs] at h; simp at h
  | cons x t =>
      rw [hs] at h hperm hsorted
      simp only [List.head?_cons, Option.some.injEq] at h
      subst h
      rcases List.sorted_cons.mp hsorted with ⟨hhead, _⟩
      refine ⟨hperm.subset (List.mem_cons_self _ t), ?_⟩
      intro b hb
      rcases List.mem_cons.mp (hperm.symm.subset hb) with hbx | hbt
      · rw [hbx]
      · exact hhead b hbt

theorem sortByFireAt_head_none {l : List Alarm} :
    (sortByFireAt l).head? = none ↔ l = [] := by
  unfold sortByFireAt
  constructor
  · intro h
    have hperm := List.perm_insertionSort fireLe l
    rw [List.head?_eq_none_iff] at h
    rw [h] at hperm
    exact hperm.symm.eq_nil
  · intro h
    rw [h]
    rfl

/-- Concrete state for the C3 counterexample, first flaw: an armed next-wake
timer survives a resync that finds nothing pending. -/
def c3TimerState : SWState := { alarms := [], nextWakeTimer := some 7 }

/-- Concrete state for the C3 counterexample, second flaw: a future
status-tagged record in the `src/sw.js` store. -/
def c3StatusState : SWState := { alarms := [c1StatusAlarm] }

/-- C3 counterexample.  First part: on a store with no pending Alarm but a
previously armed next-wake timer, the resync deletes the `nextWake`
metadata but leaves the timer armed — the claim says no next-wake timer is
left armed.  Second part (`src/sw.js` variant): a stored record with
`fireAt = 1000 > now = 0` exists, yet the resync persists no `nextWake` at
all because the record carries the reserved status tag. -/
theorem c3_counterexample :
    ((_updateNextWakeMeta true 0 c3TimerState).meta.nextWake = none ∧
      (_updateNextWakeMeta true 0 c3TimerState).nextWakeTimer = some 7) ∧
    (c1StatusAlarm ∈ c3StatusState.alarms ∧ (0 : Nat) < c1StatusAlarm.fireAt ∧
      (_updateNextWakeMeta true 0 c3StatusState).meta.nextWake = none) := by
  exact ⟨⟨rfl, rfl⟩, ⟨by simp [c3StatusState], by decide, rfl⟩⟩

/-- C3 (amended): after a resync, if the store holds at least one Alarm with
`fireAt > now` (in the `src/sw.js` variant: one whose tag is not the
reserved status tag), the persisted `nextWake` equals the minimum such
`fireAt` and the single-shot timer is armed for `fireAt - now`; otherwise
the `nextWake` metadata is deleted and a previously armed next-wake timer,
if any, is left as it was (the resync does not cancel it). -/
theorem c3_resync_nextwake (v : Bool) (now : Nat) (s : SWState) :
    (pendingFuture v now s.alarms = [] →
        (_updateNextWakeMeta v now s).meta.nextWake = none ∧
        (_updateNextWakeMeta v now s).nextWakeTimer = s.nextWakeTimer) ∧
    (pendingFuture v now s.alarms ≠ [] →
        ∃ m : Nat, now < m ∧
          (_updateNextWakeMeta v now s).meta.nextWake = some m ∧
          (_updateNextWakeMeta v now s).nextWakeTimer = some (m - now) ∧
          (∃ b ∈ pendingFuture v now s.alarms, b.fireAt = m) ∧
          ∀ b ∈ pendingFuture v now s.alarms, m ≤ b.fireAt) := by
  constructor
  · intro hemp
    have hnone : (sortByFireAt (pendingFuture v now s.alarms)).head? = none := by
      rw [hemp]
      rfl
    unfold _updateNextWakeMeta
    rw [hnone]
    exact ⟨rfl, rfl⟩
  · intro hne
    obtain ⟨a, ha⟩ : ∃ a, (sortByFireAt (pendingFuture v now s.alarms)).head? = some a := by
      cases hh : (sortByFireAt (pendingFuture v now s.alarms)).head? with
      | none => exact absurd (sortByFireAt_head_none.mp hh) hne
      | some a => exact ⟨a, rfl⟩
    obtain ⟨hmem, hmin⟩ := sortByFireAt_head_min ha
    have hlt : now < a.fireAt := (mem_pendingFuture hmem).2.1
    refine ⟨a.fireAt, hlt, ?_, ?_, ⟨a, hmem, rfl⟩, hmin⟩
    · unfold _updateNextWakeMeta
      rw [ha]
      rfl
    · unfold _updateNextWakeMeta
      rw [ha]
      show some ((max 0 ((a.fireAt : Int) - (now : Int))).toNat) = some (a.fireAt - now)
      congr 1
      omega

/-- C3 witness: on the one-alarm store `wState` (fireAt 5000) at `now = 10`,
the resync persists `nextWake = 5000` and arms the timer for 4990 ms; and on
`c3TimerState` (empty store) the metadata is deleted with the timer slot
untouched. -/
theorem c3_resync_nextwake_witness :
    pendingFuture true 10 wState.alarms ≠ [] ∧
    (∃ m : Nat, 10 < m ∧
        (_updateNextWakeMeta true 10 wState).meta.nextWake = some m ∧
        (_updateNextWakeMeta true 10 wState).nextWakeTimer = some (m - 10) ∧
        (∃ b ∈ pendingFuture true 10 wState.alarms, b.fireAt = m) ∧
        ∀ b ∈ pendingFuture true 10 wState.alarms, m ≤ b.fireAt) ∧
    (_updateNextWakeMeta true 0 c3TimerState).meta.nextWake = none := by
  refine ⟨by decide, (c3_resync_nextwake true 10 wState).2 (by decide), ?_⟩
  exact ((c3_resync_nextwake true 0 c3TimerState).1 (by decide)).1

/-! ## C4 — one Alarm per tag; re-scheduling replaces -/

theorem putAlarm_of_not_mem {l : List Alarm} {a : Alarm}
    (h : ∀ b ∈ l, b.tag ≠ a.tag) : putAlarm l a = l ++ [a] := by
  unfold putAlarm
  rw [if_neg]
  intro hany
  rcases List.any_eq_true.mp hany with ⟨b, hbl, hbt⟩
  exact h b hbl (by simpa using hbt)

theorem putAlarm_tags_nodup {l : List Alarm} (hnd : (l.map Alarm.tag).Nodup)
    (a : Alarm) : ((putAlarm l a).map Alarm.tag).Nodup := by
  unfold putAlarm
  split
  · rw [List.map_map]
    have : l.map (Alarm.tag ∘ fun b => if b.tag == a.tag then a else b) =
        l.map Alarm.tag := by
      apply List.map_congr_left
      intro b _
      by_cases hb : b.tag = a.tag
      · simp [Function.comp, hb]
      · simp [Function.comp, hb]
    rw [this]
    exact hnd
  · case isFalse hany =>
      rw [List.map_append]
      apply (List.perm_append_singleton a.tag (l.map Alarm.tag)).symm.nodup
      rw [List.nodup_cons]
      refine ⟨?_, hnd⟩
      intro hmem
      rcases List.mem_map.mp hmem with ⟨b, hbl, hbt⟩
      exact hany (List.any_eq_true.mpr ⟨b, hbl, by simpa using hbt⟩)

theorem putAlarm_countP_tag {l : List Alarm} (hnd : (l.map Alarm.tag).Nodup)
    (a : Alarm) : (putAlarm l a).countP (fun b => b.tag == a.tag) = 1 := by
  unfold putAlarm
  split
  · case isTrue hany =>
      rw [List.countP_map]
      have : l.countP ((fun b => b.tag == a.tag) ∘ fun b => if b.tag == a.tag then a else b) =
          l.countP (fun b => b.tag == a.tag) := by
        apply List.countP_congr
        intro b _
        by_cases hb : b.tag = a.tag
        · simp [Function.comp, hb]
        · simp [Function.comp, hb]
      rw [this, countP_tag_eq_count]
      rcases List.any_eq_true.mp hany with ⟨b, hbl, hbt⟩
      have hmem : a.tag ∈ l.map Alarm.tag := by
        rw [← show b.tag = a.tag from by simpa using hbt]
        exact List.mem_map_of_mem Alarm.tag hbl
      have hle := List.nodup_iff_count_le_one.mp hnd a.tag
      have hpos := List.count_pos_iff.mpr hmem
      omega
  · case isFalse hany =>
      rw [List.countP_append]
      have h0 : l.countP (fun b => b.tag == a.tag) = 0 := by
        apply List.countP_eq_zero.mpr
        intro b hbl hbt
        exact hany (List.any_eq_true.mpr ⟨b, hbl, hbt⟩)
      simp [h0]

theorem putAlarm_mem_tag_eq {l : List Alarm} {a b : Alarm}
    (hb : b ∈ putAlarm l a) (ht : b.tag = a.tag) : b = a := by
  unfold putAlarm at hb
  split at hb
  · case isTrue hany =>
      rcases List.mem_map.mp hb with ⟨c, hcl, hcb⟩
      by_cases hct : c.tag = a.tag
      · rw [if_pos (by simpa using hct)] at hcb
        exact hcb.symm
      · rw [if_neg (by simpa using hct)] at hcb
        exact absurd (hcb ▸ ht) hct
  · case isFalse hany =>
      rcases List.mem_append.mp hb with hbl | hba
      · exact absurd (List.any_eq_true.mpr ⟨b, hbl, by simpa using ht⟩) hany
      · simpa using hba

theorem handleScheduleAlarm_alarms (v : Bool) (now : Nat) (m : ScheduleMsg)
    (s : SWState) :
    (handleScheduleAlarm v now m s).alarms =
      putAlarm s.alarms (scheduledAlarm now m) := by
  unfold handleScheduleAlarm
  rw [_updateNextWakeMeta_alarms, startKeepAlive_alarms]

/-- C4: the keyed store holds at most one Alarm per tag (the tag lists stay
`Nodup` across a schedule), and re-scheduling the same tag replaces rather
than duplicates: after two `SCHEDULE_ALARM` messages for the same tag,
exactly one record with that tag is stored and its `fireAt` is the one the
later message computed (`now2 + delay2`). -/
theorem c4_schedule_replaces (v : Bool) (now1 now2 : Nat) (m1 m2 : ScheduleMsg)
    (s : SWState) (hnd : (s.alarms.map Alarm.tag).Nodup) (ht : m2.tag = m1.tag) :
    ((handleScheduleAlarm v now2 m2 (handleScheduleAlarm v now1 m1 s)).alarms.countP
        (fun b => b.tag == m1.tag) = 1) ∧
    (∀ b ∈ (handleScheduleAlarm v now2 m2 (handleScheduleAlarm v now1 m1 s)).alarms,
        b.tag = m1.tag → b.fireAt = now2 + m2.delay.getD 0) ∧
    ((handleScheduleAlarm v now2 m2 (handleScheduleAlarm v now1 m1 s)).alarms.map
        Alarm.tag).Nodup := by
  rw [handleScheduleAlarm_alarms, handleScheduleAlarm_alarms]
  have hnd1 : ((putAlarm s.alarms (scheduledAlarm now1 m1)).map Alarm.tag).Nodup :=
    putAlarm_tags_nodup hnd _
  have htag2 : (scheduledAlarm now2 m2).tag = m1.tag := ht
  refine ⟨?_, ?_, putAlarm_tags_nodup hnd1 _⟩
  · rw [← htag2]
    exact putAlarm_countP_tag hnd1 _
  · intro b hb hbt
    have : b = scheduledAlarm now2 m2 :=
      putAlarm_mem_tag_eq hb (by rw [hbt, htag2])
    rw [this]
    rfl

/-- Witness messages for C4. -/
def wMsg1 : ScheduleMsg := { tag := "A", title := "x", body := "y", delay := some 5 }

/-- Witness messages for C4, second schedule with a different delay. -/
def wMsg2 : ScheduleMsg := { tag := "A", title := "x", body := "y", delay := some 30 }

/-- C4 witness: scheduling tag `A` at `now = 10` (delay 5) then at `now = 20`
(delay 30) on an empty store leaves exactly one record with tag `A`, whose
`fireAt` is `50 = 20 + 30`. -/
theorem c4_schedule_replaces_witness :
    ((handleScheduleAlarm true 20 wMsg2 (handleScheduleAlarm true 10 wMsg1 {})).alarms.countP
        (fun b => b.tag == "A") = 1) ∧
    ∀ b ∈ (handleScheduleAlarm true 20 wMsg2 (handleScheduleAlarm true 10 wMsg1 {})).alarms,
        b.tag = "A" → b.fireAt = 50 := by
  have h := c4_schedule_replaces true 10 20 wMsg1 wMsg2 {} (by simp) rfl
  exact ⟨h.1, h.2.1⟩

/-! ## C5 — SYNC_ALARMS replaces the pending set with the future entries -/

theorem syncFold_alarms (now : Nat) :
    ∀ (incoming : List Alarm) (st : SWState),
      (incoming.map Alarm.tag).Nodup →
      (∀ b ∈ st.alarms, b.tag ∉ incoming.map Alarm.tag) →
      (incoming.foldl
          (fun st a =>
            if now < a.fireAt then { st with alarms := putAlarm st.alarms a } else st)
          st).alarms =
        st.alarms ++ incoming.filter (fun a => decide (now < a.fireAt)) := by
  intro incoming
  induction incoming with
  | nil =>
      intro st _ _
      simp
  | cons a rest ih =>
      intro st hnd hdisj
      rw [List.map_cons] at hnd
      rcases List.nodup_cons.mp hnd with ⟨hat, hndr⟩
      rw [List.foldl_cons]
      by_cases hfut : now < a.fireAt
      · rw [if_pos hfut]
        have hput : putAlarm st.alarms a = st.alarms ++ [a] :=
          putAlarm_of_not_mem (fun b hb => by
            have := hdisj b hb
            simp only [List.map_cons, List.mem_cons] at this
            exact fun hc => this (Or.inl hc))
        have hdisj2 : ∀ b ∈ ({ st with alarms := putAlarm st.alarms a } : SWState).alarms,
            b.tag ∉ rest.map Alarm.tag := by
          intro b hb
          rw [show ({ st with alarms := putAlarm st.alarms a } : SWState).alarms =
            putAlarm st.alarms a from rfl, hput] at hb
          rcases List.mem_append.mp hb with hbl | hba
          · intro hc
            exact hdisj b hbl (by simp [hc])
          · rw [List.mem_singleton.mp hba]
            exact hat
        rw [ih _ hndr hdisj2]
        rw [show ({ st with alarms := putAlarm st.alarms a } : SWState).alarms =
          putAlarm st.alarms a from rfl, hput]
        simp [List.filter_cons, hfut]
      · rw [if_neg hfut]
        rw [ih st hndr (fun b hb hc => hdisj b hb (by simp [hc]))]
        simp [List.filter_cons, hfut]

/-- C5: whatever the prior store content, after a `SYNC_ALARMS` message
carrying `incoming` (a tag-keyed alarm list) the pending set is exactly the
future-dated entries of the list — previously stored Alarms are all gone and
past-dated entries are silently dropped.  (The handler makes no
`showNotification` call for any alarm, so no notification accompanies the
drops; the status-summary display is outside the alarm trace.) -/
theorem c5_sync_replaces (v : Bool) (now : Nat) (incoming : List Alarm)
    (s : SWState) (hnd : (incoming.map Alarm.tag).Nodup) :
    (handleSyncAlarms v now incoming s).alarms =
      incoming.filter (fun a => decide (now < a.fireAt)) := by
  unfold handleSyncAlarms
  rw [_updateNextWakeMeta_alarms, startKeepAlive_alarms]
  have := syncFold_alarms now incoming { s with alarms := [] } hnd (by simp)
  rw [this]
  rfl

/-- C5 witness: syncing `[wAlarm (fireAt 5000), c1StatusAlarm (fireAt 1000)]`
at `now = 2000` over the populated store `wState` leaves exactly the
future-dated entry. -/
theorem c5_sync_replaces_witness :
    (handleSyncAlarms true 2000 [wAlarm, c1StatusAlarm] wState).alarms = [wAlarm] := by
  have h := c5_sync_replaces true 2000 [wAlarm, c1StatusAlarm] wState (by decide)
  rw [h]
  rfl

/-! ## C6 — the keep-alive driver stops and stays stopped -/

/-- C6: (1) a tick that fires while the driver is Running and whose scan
leaves no real pending Alarm (either reading of "remaining": a failed
re-read degrades to `[]`) transitions the driver to Idle — running flag
cleared and no tick timer armed — within that same tick; (2) from the Idle
state with no armed tick, any sequence of keep-alive events that contains
no `start()` call keeps the driver Idle and executes zero tick bodies. -/
theorem c6_keepalive_stops :
    (∀ (variant : Bool) (now : Nat) (rf1 rf2 : Bool) (sf : String → Bool)
        (s : SWState),
      s.keepAliveRunning = true → s.keepAliveTimer = true →
      kaHasReal variant (if rf2 then [] else
          (checkDueAlarms variant now rf1 sf
            { s with keepAliveTimer := false }).1.alarms) = false →
      (kaStep (KAEvent.tick variant now rf1 rf2 sf) s).1.keepAliveRunning = false ∧
      (kaStep (KAEvent.tick variant now rf1 rf2 sf) s).1.keepAliveTimer = false ∧
      (kaStep (KAEvent.tick variant now rf1 rf2 sf) s).2 = true) ∧
    (∀ (s : SWState) (evs : List KAEvent),
      s.keepAliveRunning = false → s.keepAliveTimer = false →
      evs.all (fun e => !e.isStart) = true →
      (kaRun evs s).1.keepAliveRunning = false ∧
      (kaRun evs s).1.keepAliveTimer = false ∧
      (kaRun evs s).2 = 0) := by
  constructor
  · intro variant now rf1 rf2 sf s hR hT hidle
    simp only [kaStep]
    rw [if_neg (by simp [hT]), if_neg (by simp [hR]), if_pos hidle]
    exact ⟨rfl, rfl, rfl⟩
  · intro s evs
    induction evs generalizing s with
    | nil =>
        intro hR hT _
        exact ⟨hR, hT, rfl⟩
    | cons e es ih =>
        intro hR hT hall
        rw [List.all_cons, Bool.and_eq_true] at hall
        simp only [kaRun]
        cases e with
        | start => simp [KAEvent.isStart] at hall
        | stop =>
            have hstep : kaStep KAEvent.stop s = (stopKeepAlive s, false) := rfl
            rw [hstep]
            have h := ih (stopKeepAlive s) rfl rfl hall.2
            exact ⟨h.1, h.2.1, by simpa using h.2.2⟩
        | tick variant now rf1 rf2 sf =>
            have hstep : kaStep (KAEvent.tick variant now rf1 rf2 sf) s = (s, false) := by
              simp only [kaStep]
              rw [if_pos hT]
            rw [hstep]
            have h := ih s hR hT hall.2
            exact ⟨h.1, h.2.1, by simpa using h.2.2⟩

/-- A Running keep-alive state over the one-alarm store, for the C6 witness. -/
def c6State : SWState :=
  { alarms := [wAlarm], keepAliveRunning := true, keepAliveTimer := true }

/-- C6 witness: at `now = 5001` the tick fires `wAlarm`, finds nothing real
remaining and goes Idle; afterwards a stop and a further (timer-less) tick
event keep it Idle with zero executed ticks. -/
theorem c6_keepalive_stops_witness :
    ((kaStep (KAEvent.tick true 5001 false false (fun _ => false)) c6State).1.keepAliveRunning
        = false ∧
      (kaStep (KAEvent.tick true 5001 false false (fun _ => false)) c6State).1.keepAliveTimer
        = false) ∧
    ((kaRun [KAEvent.stop, KAEvent.tick true 9999 false false (fun _ => false)]
        (kaStep (KAEvent.tick true 5001 false false (fun _ => false)) c6State).1).1.keepAliveTimer
        = false ∧
      (kaRun [KAEvent.stop, KAEvent.tick true 9999 false false (fun _ => false)]
        (kaStep (KAEvent.tick true 5001 false false (fun _ => false)) c6State).1).2 = 0) := by
  have h1 := c6_keepalive_stops.1 true 5001 false false (fun _ => false) c6State
    rfl rfl (by decide)
  have h2 := c6_keepalive_stops.2
    (kaStep (KAEvent.tick true 5001 false false (fun _ => false)) c6State).1
    [KAEvent.stop, KAEvent.tick true 9999 false false (fun _ => false)]
    h1.1 h1.2.1 (by decide)
  exact ⟨⟨h1.1, h1.2.1⟩, ⟨h2.2.1, h2.2.2⟩⟩

/-! ## C7 — the bounded status-notification repost loop -/

/-- What one executed iteration of the repost loop must satisfy: it ends in
`abortPref` exactly when the preference read `false`; in `abortExisting`
exactly when the preference did not read `false` but a status notification
was already displayed; and it attempts a repost exactly when both checks
passed. -/
def repostIterSpec (e : RepostEnv) (o : RepostOutcome) : Prop :=
  (o = RepostOutcome.abortPref ↔ e.pref = some false) ∧
  (o = RepostOutcome.abortExisting ↔ (e.pref ≠ some false ∧ e.existing = true)) ∧
  (o.attempted = true ↔ (e.pref ≠ some false ∧ e.existing = false))

theorem repostLoopGo_spec (env : Nat → RepostEnv) :
    ∀ (ds : List Nat) (i : Nat),
      (repostLoopGo env i ds).length ≤ ds.length ∧
      (repostLoopGo env i ds).map Prod.fst <+: ds ∧
      (∀ j d o, (repostLoopGo env i ds).get? j = some (d, o) →
        repostIterSpec (env (i + j)) o ∧
        (o = RepostOutcome.retry ∨ j + 1 = (repostLoopGo env i ds).length)) ∧
      ((∀ j, (env j).pref ≠ some false ∧ (env j).existing = false ∧
          (env j).shownAfter = false) →
        (repostLoopGo env i ds).length = ds.length) := by
  intro ds
  induction ds with
  | nil =>
      intro i
      refine ⟨Nat.le_refl 0, List.prefix_refl [], ?_, fun _ => rfl⟩
      intro j d o h
      simp [repostLoopGo] at h
  | cons d rest ih =>
      intro i
      by_cases hp : (env i).pref = some false
      · have hgo : repostLoopGo env i (d :: rest) = [(d, RepostOutcome.abortPref)] := by
          unfold repostLoopGo
          rw [if_pos hp]
        rw [hgo]
        refine ⟨by simp, ⟨rest, rfl⟩, ?_, ?_⟩
        · intro j dd o h
          cases j with
          | zero =>
              simp only [List.get?] at h
              injection h with h
              injection h with h1 h2
              subst h2
              exact ⟨⟨Iff.intro (fun _ => hp) (fun _ => rfl),
                Iff.intro (fun hq => absurd hq (by decide)) (fun hq => absurd hp hq.1),
                Iff.intro (fun hq => absurd hq (by decide)) (fun hq => absurd hp hq.1)⟩,
                Or.inr rfl⟩
          | succ j => simp [List.get?] at h
        · intro hgood
          exact absurd hp (hgood i).1
      · by_cases he : (env i).existing = true
        · have hgo : repostLoopGo env i (d :: rest) = [(d, RepostOutcome.abortExisting)] := by
            unfold repostLoopGo
            rw [if_neg hp, if_pos he]
          rw [hgo]
          refine ⟨by simp, ⟨rest, rfl⟩, ?_, ?_⟩
          · intro j dd o h
            cases j with
            | zero =>
                simp only [List.get?] at h
                injection h with h
                injection h with h1 h2
                subst h2
                exact ⟨⟨Iff.intro (fun hq => absurd hq (by decide)) (fun hq => absurd hq hp),
                  Iff.intro (fun _ => ⟨hp, he⟩) (fun _ => rfl),
                  Iff.intro (fun hq => absurd hq (by decide))
                    (fun hq => absurd (hq.2.symm.trans he) (by decide))⟩,
                  Or.inr rfl⟩
            | succ j => simp [List.get?] at h
          · intro hgood
            exact absurd ((hgood i).2.1.symm.trans he) (by decide)
        · by_cases hs : (env i).shownAfter = true
          · have hgo : repostLoopGo env i (d :: rest) = [(d, RepostOutcome.success)] := by
              unfold repostLoopGo
              rw [if_neg hp, if_neg he, if_pos hs]
            rw [hgo]
            refine ⟨by simp, ⟨rest, rfl⟩, ?_, ?_⟩
            · intro j dd o h
              cases j with
              | zero =>
                  simp only [List.get?] at h
                  injection h with h
                  injection h with h1 h2
                  subst h2
                  exact ⟨⟨Iff.intro (fun hq => absurd hq (by decide)) (fun hq => absurd hq hp),
                    Iff.intro (fun hq => absurd hq (by decide)) (fun hq => absurd hq.2 he),
                    Iff.intro (fun _ => ⟨hp, by simpa using he⟩) (fun _ => rfl)⟩,
                    Or.inr rfl⟩
              | succ j => simp [List.get?] at h
            · intro hgood
              exact absurd ((hgood i).2.2.symm.trans hs) (by decide)
          · have hgo : repostLoopGo env i (d :: rest) =
                (d, RepostOutcome.retry) :: repostLoopGo env (i + 1) rest := by
              conv_lhs => rw [repostLoopGo]
              rw [if_neg hp, if_neg he, if_neg hs]
            rw [hgo]
            obtain ⟨ihlen, ihpre, ihget, ihall⟩ := ih (i + 1)
            refine ⟨by simpa using Nat.succ_le_succ ihlen, ?_, ?_, ?_⟩
            · rw [List.map_cons]
              obtain ⟨t, ht⟩ := ihpre
              exact ⟨t, by rw [List.cons_append, ht]⟩
            · intro j dd o h
              cases j with
              | zero =>
                  simp only [List.get?] at h
                  injection h with h
                  injection h with h1 h2
                  subst h2
                  exact ⟨⟨Iff.intro (fun hq => absurd hq (by decide)) (fun hq => absurd hq hp),
                    Iff.intro (fun hq => absurd hq (by decide)) (fun hq => absurd hq.2 he),
                    Iff.intro (fun _ => ⟨hp, by simpa using he⟩) (fun _ => rfl)⟩,
                    Or.inl rfl⟩
              | succ j =>
                  simp only [List.get?] at h
                  obtain ⟨hspec, hor⟩ := ihget j dd o h
                  rw [show i + 1 + j = i + (j + 1) from by omega] at hspec
                  refine ⟨hspec, ?_⟩
                  rcases hor with hr | hlen
                  · exact Or.inl hr
                  · exact Or.inr (by simp [List.length_cons, hlen])
            · intro hgood
              rw [List.length_cons, ihall hgood, List.length_cons]

/-- C7: the `notificationclose` repost loop.  The backoff table has exactly
10 strictly increasing delays from 300 ms to 8000 ms; whatever the
environment does, the loop executes at most 10 iterations (hence makes at
most 10 repost attempts) whose slept delays form a prefix of the table;
each executed iteration obeys the check order — abort on
`statusNotifEnabled === false`, else abort when the status notification is
already displayed, and attempt the repost only when both checks passed —
and any non-`retry` iteration is the last one (an abort ends the whole
loop); and when every attempt fails (preference never `false`, never
already displayed, never confirmed shown) the loop still stops after
exhausting all 10 delays. -/
theorem c7_repost_loop (env : Nat → RepostEnv) :
    repostDelays.length = 10 ∧
    List.Chain' (fun a b => a < b) repostDelays ∧
    repostDelays.head? = some 300 ∧
    repostDelays.getLast? = some 8000 ∧
    (repostLoop env).countP (fun p => p.2.attempted) ≤ 10 ∧
    (repostLoop env).map Prod.fst <+: repostDelays ∧
    (∀ j d o, (repostLoop env).get? j = some (d, o) →
      repostIterSpec (env j) o ∧
      (o = RepostOutcome.retry ∨ j + 1 = (repostLoop env).length)) ∧
    ((∀ j, (env j).pref ≠ some false ∧ (env j).existing = false ∧
        (env j).shownAfter = false) →
      (repostLoop env).length = 10) := by
  obtain ⟨hlen, hpre, hget, hall⟩ := repostLoopGo_spec env repostDelays 0
  refine ⟨rfl, by simp [repostDelays, List.chain'_cons], rfl, by decide, ?_, hpre, ?_, ?_⟩
  · calc (repostLoop env).countP (fun p => p.2.attempted)
        ≤ (repostLoop env).length := List.countP_le_length _
      _ ≤ repostDelays.length := hlen
      _ = 10 := rfl
  · intro j d o h
    have := hget j d o h
    simpa using this
  · intro hgood
    exact hall hgood

/-- C7 witness: with an environment on which every repost attempt fails and
no abort condition ever holds, the loop runs all 10 iterations, every slept
delay comes from the table, and at most 10 attempts are made. -/
theorem c7_repost_loop_witness :
    (repostLoop (fun _ => {})).length = 10 ∧
    (repostLoop (fun _ => {})).map Prod.fst <+: repostDelays ∧
    (repostLoop (fun _ => {})).countP (fun p => p.2.attempted) ≤ 10 := by
  have h := c7_repost_loop (fun _ => {})
  exact ⟨h.2.2.2.2.2.2.2 (fun _ => ⟨by decide, rfl, rfl⟩), h.2.2.2.2.2.1, h.2.2.2.2.1⟩

/-! ## C8 — re-arming on wakeup -/

/-- C8: on a passive wakeup with no next-wake timer armed and a persisted
`nextWake = v` (a genuine timestamp, `0 < v`; the JS truthiness guard
`if (nextWake)` also skips the degenerate value `0`), the operation runs the
scanner immediately when the deadline has passed (`v ≤ now`) and otherwise
arms the single-shot timer for exactly `v - now`; when a timer is already
armed it changes nothing regardless of anything else. -/
theorem c8_rearm_on_wakeup (variant : Bool) (now : Nat) (srf : Bool)
    (sf : String → Bool) (s : SWState) :
    (∀ d : Nat, s.nextWakeTimer = some d →
        ∀ mrf : Bool, rearmOnWakeup now mrf srf sf variant s = (s, [])) ∧
    (s.nextWakeTimer = none →
      ∀ v : Nat, s.meta.nextWake = some v → 0 < v →
        (v ≤ now →
          rearmOnWakeup now false srf sf variant s =
            checkDueAlarms variant now srf sf s) ∧
        (now < v →
          rearmOnWakeup now false srf sf variant s =
            ({ s with nextWakeTimer := some (v - now) }, []))) := by
  constructor
  · intro d hd mrf
    unfold rearmOnWakeup
    rw [if_pos (by rw [hd]; rfl)]
  · intro htimer v hv hvpos
    have hsome : ¬ s.nextWakeTimer.isSome = true := by rw [htimer]; simp
    constructor
    · intro hle
      unfold rearmOnWakeup
      rw [if_neg hsome, if_neg (by simp), hv]
      show (if v = 0 then (s, ([] : List (NotifCall × Bool)))
        else if (v : Int) - (now : Int) ≤ 0 then checkDueAlarms variant now srf sf s
        else (_armNextWakeTimer ((v : Int) - (now : Int)) s, [])) =
          checkDueAlarms variant now srf sf s
      rw [if_neg (show ¬ v = 0 from by omega),
        if_pos (show (v : Int) - (now : Int) ≤ 0 from by omega)]
    · intro hlt
      unfold rearmOnWakeup
      rw [if_neg hsome, if_neg (by simp), hv]
      show (if v = 0 then (s, ([] : List (NotifCall × Bool)))
        else if (v : Int) - (now : Int) ≤ 0 then checkDueAlarms variant now srf sf s
        else (_armNextWakeTimer ((v : Int) - (now : Int)) s, [])) = _
      rw [if_neg (show ¬ v = 0 from by omega),
        if_neg (show ¬ (v : Int) - (now : Int) ≤ 0 from by omega)]
      unfold _armNextWakeTimer
      rw [show (max 0 ((v : Int) - (now : Int))).toNat = v - now from by omega]

/-- Idle state with a persisted deadline, for the C8 witness. -/
def c8Idle : SWState := { alarms := [wAlarm], meta := { nextWake := some 5000 } }

/-- Armed state for the C8 witness. -/
def c8Armed : SWState := { nextWakeTimer := some 3 }

/-- C8 witness: with a timer armed the operation is a no-op; with no timer
and `nextWake = 5000`, at `now = 100` it arms the timer for 4900 ms, and at
`now = 6000` it runs the scanner. -/
theorem c8_rearm_on_wakeup_witness :
    rearmOnWakeup 100 true false (fun _ => false) true c8Armed = (c8Armed, []) ∧
    rearmOnWakeup 100 false false (fun _ => false) true c8Idle =
      ({ c8Idle with nextWakeTimer := some 4900 }, []) ∧
    rearmOnWakeup 6000 false false (fun _ => false) true c8Idle =
      checkDueAlarms true 6000 false (fun _ => false) c8Idle := by
  refine ⟨(c8_rearm_on_wakeup true 100 false (fun _ => false) c8Armed).1 3 rfl true, ?_, ?_⟩
  · exact ((c8_rearm_on_wakeup true 100 false (fun _ => false) c8Idle).2 rfl 5000 rfl
      (by decide)).2 (by decide)
  · exact ((c8_rearm_on_wakeup true 6000 false (fun _ => false) c8Idle).2 rfl 5000 rfl
      (by decide)).1 (by decide)

/-! ## C9 — scan behavior under a failing store read -/

/-- Shared helper: a scan whose initial read throws returns at once and
leaves everything unchanged. -/
theorem checkDueAlarms_readFail (variant : Bool) (now : Nat)
    (sf : String → Bool) (s : SWState) :
    checkDueAlarms variant now true sf s = (s, []) := by
  unfold checkDueAlarms
  rw [if_pos rfl]

/-- Store with one pending alarm and a persisted `nextWake`, for the C9
counterexample. -/
def c9State : SWState := { alarms := [wAlarm], meta := { nextWake := some 5000 } }

/-- C9 counterexample: a read-failing scan is NOT equivalent to a scan that
read an empty alarm list.  On `c9State` at `now = 10`, the read-failing scan
returns with the whole state unchanged (`nextWake` still persisted), while
the same scan over the state with an empty alarm list runs the next-wake
resync, which deletes the `nextWake` metadata: the resulting states differ. -/
theorem c9_counterexample :
    (checkDueAlarms true 10 true (fun _ => false) c9State).1 = c9State ∧
    (checkDueAlarms true 10 true (fun _ => false) c9State).1.meta.nextWake = some 5000 ∧
    (checkDueAlarms true 10 false (fun _ => false)
        { c9State with alarms := [] }).1.meta.nextWake = none ∧
    (checkDueAlarms true 10 true (fun _ => false) c9State).1 ≠
      (checkDueAlarms true 10 false (fun _ => false) { c9State with alarms := [] }).1 := by
  refine ⟨rfl, rfl, rfl, by decide⟩

/-- C9 (amended): when the durable-store read of the alarms collection
throws, the scan returns immediately: it emits no notification, deletes no
Alarm, never propagates the failure, and leaves the entire state unchanged —
including the `nextWake` metadata, which a scan that actually read an empty
alarm list would have gone on to delete in its resync step. -/
theorem c9_scan_read_failure (variant : Bool) (now : Nat) (sf : String → Bool)
    (s : SWState) : checkDueAlarms variant now true sf s = (s, []) :=
  checkDueAlarms_readFail variant now sf s

/-! ## C10 — the status tag is invisible to the core (`src/sw.js`) -/

theorem removedTags_not_status (now : Nat) (l : List Alarm) :
    STATUS_TAG ∉ removedTags true now l := by
  intro h
  rcases List.mem_map.mp h with ⟨b, hb, hbt⟩
  rcases List.mem_filter.mp hb with ⟨_, hbp⟩
  have hbp2 : Fires true now b ∨ Expires true now b := by simpa using hbp
  rcases hbp2 with hf | he
  · exact hf.1 ⟨rfl, hbt⟩
  · exact he.1 ⟨rfl, hbt⟩

/-- C10: in the `src/sw.js` variant a stored record carrying the reserved
status tag `'alarm-watcher'` is invisible to the core: the scan leaves it
stored whatever its age and never emits a call with the status tag; the
next-wake selection is unchanged by its presence (both the persisted
minimum and the armed timer); and a keep-alive tick over a store holding
only status-tagged records still stops the driver. -/
theorem c10_status_tag_invisible (now : Nat) (sf : String → Bool) (s : SWState)
    (a : Alarm) (hname : a.tag = STATUS_TAG) :
    (a ∈ s.alarms → a ∈ (checkDueAlarms true now false sf s).1.alarms) ∧
    (∀ c ∈ (checkDueAlarms true now false sf s).2, c.1.tag ≠ STATUS_TAG) ∧
    ((_updateNextWakeMeta true now { s with alarms := a :: s.alarms }).meta.nextWake =
        (_updateNextWakeMeta true now s).meta.nextWake ∧
      (_updateNextWakeMeta true now { s with alarms := a :: s.alarms }).nextWakeTimer =
        (_updateNextWakeMeta true now s).nextWakeTimer) ∧
    (s.keepAliveRunning = true → s.keepAliveTimer = true →
      (∀ b ∈ s.alarms, b.tag = STATUS_TAG) →
      ∀ rf1 rf2 : Bool,
        (kaStep (KAEvent.tick true now rf1 rf2 sf) s).1.keepAliveRunning = false ∧
        (kaStep (KAEvent.tick true now rf1 rf2 sf) s).1.keepAliveTimer = false) := by
  refine ⟨?_, ?_, ?_, ?_⟩
  · intro ha
    rw [checkDueAlarms_fst_alarms]
    apply List.mem_filter.mpr
    refine ⟨ha, ?_⟩
    have : ¬ (removedTags true now s.alarms).contains a.tag = true := by
      intro hc
      exact removedTags_not_status now s.alarms (hname ▸ List.elem_iff.mp hc)
    simp only [Bool.not_eq_true] at this
    rw [this]
    rfl
  · intro c hc
    rw [checkDueAlarms_snd] at hc
    rcases (mem_scanCalls true now sf s.alarms c).mp hc with ⟨b, _, hbf, rfl⟩
    intro ht
    exact hbf.1 ⟨rfl, by rw [← ht]; rfl⟩
  · have hpf : pendingFuture true now (a :: s.alarms) = pendingFuture true now s.alarms := by
      unfold pendingFuture
      rw [List.filter_cons]
      simp [hname]
    unfold _updateNextWakeMeta
    rw [show ({ s with alarms := a :: s.alarms } : SWState).alarms = a :: s.alarms from rfl,
      hpf]
    cases (sortByFireAt (pendingFuture true now s.alarms)).head? <;> exact ⟨rfl, rfl⟩
  · intro hR hT hall rf1 rf2
    have hcond : kaHasReal true (if rf2 then [] else
        (checkDueAlarms true now rf1 sf
          { s with keepAliveTimer := false }).1.alarms) = false := by
      cases rf2 with
      | true => rfl
      | false =>
          rw [if_neg (by simp)]
          show List.any _ _ = false
          rw [List.any_eq_false]
          intro b hb
          have hbs : b ∈ s.alarms := by
            cases rf1 with
            | true =>
                rw [checkDueAlarms_readFail] at hb
                exact hb
            | false =>
                rw [checkDueAlarms_fst_alarms] at hb
                exact (List.mem_filter.mp hb).1
          simp [hall b hbs]
    simp only [kaStep]
    rw [if_neg (by simp [hT]), if_neg (by simp [hR]), if_pos hcond]
    exact ⟨rfl, rfl⟩

/-- Running keep-alive state over a status-only store, for the C10 witness. -/
def c10State : SWState :=
  { alarms := [c1StatusAlarm], keepAliveRunning := true, keepAliveTimer := true }

/-- C10 witness: the due status record survives the scan of `c10State`, no
call is made with its tag, and the tick over the status-only store stops the
driver. -/
theorem c10_status_tag_invisible_witness :
    c1StatusAlarm ∈ (checkDueAlarms true 1000 false (fun _ => false) c10State).1.alarms ∧
    (∀ c ∈ (checkDueAlarms true 1000 false (fun _ => false) c10State).2,
      c.1.tag ≠ STATUS_TAG) ∧
    (kaStep (KAEvent.tick true 1000 false false (fun _ => false)) c10State).1.keepAliveRunning
      = false := by
  have h := c10_status_tag_invisible 1000 (fun _ => false) c10State c1StatusAlarm rfl
  refine ⟨h.1 (by simp [c10State]), h.2.1, ?_⟩
  exact (h.2.2.2 rfl rfl (by intro b hb; simp [c10State] at hb; rw [hb]; rfl) false false).1
